import Mathlib

/-!
Verification of the `alien` DPoS snapshot core (`consensus/alien/snapshot.go`).

The embedding models Go `*big.Int` values as references into an explicit
store, because the source shares and mutates those cells in place
(`copy` shares the tally cells with the parent, `apply` runs `Add`/`Sub`
directly on them); value-level modelling would hide exactly the behaviour
several claims are about.  Go maps are modelled as association lists whose
iteration order is the list order; Go map writes update the existing entry
in place or append a fresh one, which `insertA` mirrors.  `uint64`
arithmetic is carried out on `Nat` with explicit `% 2^64` wrapping, and the
Go `int`/`int64` conversions and `%` (sign of the dividend) are modelled
explicitly.  Go runtime panics (nil `*big.Int` receiver, division by zero,
negative slice index) are modelled as distinguished outcomes.
-/

set_option linter.unusedVariables false

namespace Alien

/-- `common.Address`, modelled as a natural number. -/
abbrev Address := Nat

/-- A reference to a `big.Int` heap cell. -/
abbrev Ref := Nat

/-- The heap of `big.Int` cells: a bump allocator with next-free index. -/
structure Store where
  size : Nat
  val : Nat → Int

/-- Dereference a `*big.Int`. -/
def storeRead (σ : Store) (r : Ref) : Int := σ.val r

/-- In-place mutation of a `big.Int` cell (the receiver of `Add`/`Sub`). -/
def storeWrite (σ : Store) (r : Ref) (v : Int) : Store :=
  ⟨σ.size, fun x => if x = r then v else σ.val x⟩

/-- Allocation of a fresh `big.Int` cell (`new(big.Int)`, decoded values). -/
def storeAlloc (σ : Store) (v : Int) : Store × Ref :=
  (⟨σ.size + 1, fun x => if x = σ.size then v else σ.val x⟩, σ.size)

/-- Go map read `m[a]` returning presence, first matching entry. -/
def lookupA {V : Type} : List (Address × V) → Address → Option V
  | [], _ => none
  | (k, v) :: t, a => if k = a then some v else lookupA t a

/-- Go map write `m[a] = v`: replace the existing entry or append. -/
def insertA {V : Type} : List (Address × V) → Address → V → List (Address × V)
  | [], a, v => [(a, v)]
  | (k, w) :: t, a, v => if k = a then (a, v) :: t else (k, w) :: insertA t a v

/-- Go map `delete(m, a)`. -/
def eraseA {V : Type} : List (Address × V) → Address → List (Address × V)
  | [], _ => []
  | (k, w) :: t, a => if k = a then t else (k, w) :: eraseA t a

/-- Truncation to `uint64`. -/
def u64 (n : Nat) : Nat := n % 2 ^ 64

/-- Go `uint64` subtraction `a - b` (wrapping). -/
def u64sub (a b : Nat) : Nat := (u64 a + (2 ^ 64 - u64 b)) % 2 ^ 64

/-- Go conversion `int64(n)` of a `uint64` value (two's-complement wrap);
also models `int(n)` on a 64-bit platform. -/
def goInt64 (n : Nat) : Int :=
  if u64 n < 2 ^ 63 then (u64 n : Int) else (u64 n : Int) - 2 ^ 64

/-- Go `%` on `int` (result takes the sign of the dividend), positive divisor. -/
def goIntMod (a : Int) (n : Nat) : Int :=
  if 0 ≤ a then ((a.toNat % n : Nat) : Int) else -(((-a).toNat % n : Nat) : Int)

/-- `big.Int.Uint64`: the low 64 bits of the absolute value. -/
def bigUint64 (i : Int) : Nat := i.natAbs % 2 ^ 64

/-- `params.AlienConfig`, the fields the snapshot logic reads. -/
structure AlienConfig where
  maxSignerCount : Nat
  period : Nat
  epoch : Nat
  genesisTimestamp : Nat
  selfVoteSigners : List Address
deriving DecidableEq

/-- A stored `Vote`; its `Stake` field is a `*big.Int`, hence a `Ref`. -/
structure Vote where
  voter : Address
  candidate : Address
  stake : Ref
deriving DecidableEq

/-- `Snapshot` (snapshot.go:44-61); the unexported `config`/`sigcache`
fields are process-wide and passed separately. `Tally` values and `Voters`
values are `*big.Int`, hence `Ref`s; `Punished` holds plain `uint64`. -/
structure Snapshot where
  number : Nat
  hash : Nat
  signers : List Address
  votes : List (Address × Vote)
  tally : List (Address × Ref)
  voters : List (Address × Ref)
  punished : List (Address × Nat)
  headerTime : Nat
  loopStartTime : Nat
deriving DecidableEq

/-- A decoded vote inside `HeaderExtra`; its stake is a decoded value that
is allocated as a fresh cell when the payload is decoded. -/
structure HVote where
  voter : Address
  candidate : Address
  stake : Int
deriving DecidableEq

/-- The decoded extra-data record. -/
structure HeaderExtra where
  loopStartTime : Nat
  signerQueue : List Address
  currentBlockVotes : List HVote
  modifyPredecessorVotes : List HVote
  signerMissing : List Address
deriving DecidableEq

/-- The zero value of `HeaderExtra`, which is what `apply` is left with
when `rlp.DecodeBytes` fails (its error is discarded, snapshot.go:192). -/
def zeroHeaderExtra : HeaderExtra := ⟨0, [], [], [], []⟩

/-- A block header as `apply` consumes it: `sigOk` is the outcome of the
external `ecrecover` call, `extra` the outcome of decoding the extra-data
payload (`none` = decode failure). -/
structure Header where
  number : Nat
  time : Nat
  coinbase : Address
  hash : Nat
  sigOk : Bool
  extra : Option HeaderExtra
deriving DecidableEq

/-- Default header (for `getD` on header lists). -/
def dHeader : Header := ⟨0, 0, 0, 0, false, none⟩

/-- Outcomes of `apply` other than success: the two returned errors, plus
Go runtime panics reachable in this code (nil `*big.Int` receiver when a
tally entry is missing, `%` by zero when `Epoch` is zero). -/
inductive ApplyError where
  | invalidVotingChain
  | ecrecoverFailed
  | nilTallyPanic
  | modZeroPanic
deriving DecidableEq

/-- `copy` (snapshot.go:129-163): each vote's stake gets a freshly
allocated cell (line 150), but the tally cells (line 154) and the voter
block-number cells (line 157) are shared with the parent snapshot. -/
def copySnap (σ : Store) (s : Snapshot) : Store × Snapshot :=
  let p := s.votes.foldl
    (fun acc kv =>
      let ar := storeAlloc acc.1 (storeRead acc.1 kv.2.stake)
      (ar.1, acc.2 ++ [(kv.1, Vote.mk kv.2.voter kv.2.candidate ar.2)]))
    (σ, ([] : List (Address × Vote)))
  (p.1, { s with votes := p.2 })

/-- The add-or-create part of the new-vote handling (snapshot.go:205-210):
if the candidate has a tally cell, `Add` the decoded stake into it in
place; otherwise the tally entry is made to point at the decoded vote's
own stake cell `r` (line 209), the aliasing the votes map also receives. -/
def applyVoteTally (σ : Store) (s : Snapshot) (v : HVote) (r : Ref) :
    Store × Snapshot :=
  match lookupA s.tally v.candidate with
  | some tr => (storeWrite σ tr (storeRead σ tr + storeRead σ r), s)
  | none => (σ, { s with tally := insertA s.tally v.candidate r })

/-- One iteration of the `CurrentBlockVotes` loop (snapshot.go:200-214).
`numRef` is the header's `Number` cell (stored into `Voters`, line 213).
A missing tally entry for the previous candidate makes line 203 call `Sub`
on a nil `*big.Int`, a runtime panic. -/
def applyVote (numRef : Ref) (σs : Store × Snapshot) (v : HVote) :
    Except ApplyError (Store × Snapshot) := do
  let (σ1, s1) := σs
  let ar := storeAlloc σ1 v.stake
  let σ2 := ar.1
  let r := ar.2
  let σ3 ←
    match lookupA s1.votes v.voter with
    | some lastVote =>
      match lookupA s1.tally lastVote.candidate with
      | none => Except.error ApplyError.nilTallyPanic
      | some tr =>
          Except.ok (storeWrite σ2 tr (storeRead σ2 tr - storeRead σ2 lastVote.stake))
    | none => Except.ok σ2
  let p := applyVoteTally σ3 s1 v r
  Except.ok (p.1, { p.2 with
    votes := insertA p.2.votes v.voter (Vote.mk v.voter v.candidate r),
    voters := insertA p.2.voters v.voter numRef })

/-- One iteration of the `ModifyPredecessorVotes` loop (snapshot.go:216-224):
`Sub` the old stake and `Add` the new stake on the candidate's tally cell,
replace the vote's stake, and leave `Voters` untouched. -/
def applyModify (σs : Store × Snapshot) (tx : HVote) :
    Except ApplyError (Store × Snapshot) :=
  let (σ1, s) := σs
  let ar := storeAlloc σ1 tx.stake
  let σ2 := ar.1
  let r := ar.2
  match lookupA s.votes tx.voter with
  | none => Except.ok (σ2, s)
  | some lastVote =>
    match lookupA s.tally lastVote.candidate with
    | none => Except.error ApplyError.nilTallyPanic
    | some tr =>
      let σ3 := storeWrite σ2 tr (storeRead σ2 tr - storeRead σ2 lastVote.stake)
      let σ4 := storeWrite σ3 tr (storeRead σ3 tr + storeRead σ3 r)
      Except.ok (σ4, { s with
        votes := insertA s.votes tx.voter (Vote.mk tx.voter lastVote.candidate r) })

/-- Epoch halving of the punishment counters (snapshot.go:226-234): each
counter is halved by integer division, entries reaching zero are removed. -/
def epochHalve (p : List (Address × Nat)) : List (Address × Nat) :=
  p.filterMap (fun kv => if kv.2 / 2 > 0 then some (kv.1, kv.2 / 2) else none)

/-- Punish missing signers (snapshot.go:236-242), `uint64` addition. -/
def punishMissing (p : List (Address × Nat)) (missing : List Address) :
    List (Address × Nat) :=
  missing.foldl
    (fun p m =>
      match lookupA p m with
      | some c => insertA p m (u64 (c + 100))
      | none => insertA p m 100) p

/-- Reward the sealing signer (snapshot.go:243-249): the `uint64` counter
is decremented by `signRewardCredit = 10` with wrapping, then the entry is
deleted when the stored value is `<= 0`, which for a `uint64` means
exactly zero. -/
def rewardSigner (p : List (Address × Nat)) (cb : Address) : List (Address × Nat) :=
  match lookupA p cb with
  | none => p
  | some c =>
    let c2 := u64sub c 10
    if c2 ≤ 0 then eraseA p cb else insertA p cb c2

/-- Per-header body of `apply` (snapshot.go:184-250).  Note that line 192
discards the error returned by `rlp.DecodeBytes`: on a decode failure the
zero-valued `HeaderExtra` is used and processing continues. -/
def applyHeader (cfg : AlienConfig) (σs : Store × Snapshot) (h : Header) :
    Except ApplyError (Store × Snapshot) := do
  let (σ0, s0) := σs
  if h.sigOk = false then throw ApplyError.ecrecoverFailed
  let he := h.extra.getD zeroHeaderExtra
  let s1 := { s0 with headerTime := h.time, loopStartTime := he.loopStartTime,
                      signers := he.signerQueue }
  let ar := storeAlloc σ0 (h.number : Int)
  let (σ2, s2) ← he.currentBlockVotes.foldlM (applyVote ar.2) (ar.1, s1)
  let (σ3, s3) ← he.modifyPredecessorVotes.foldlM applyModify (σ2, s2)
  let s4 ←
    if cfg.epoch = 0 then throw ApplyError.modZeroPanic
    else if u64 h.number % cfg.epoch = 0 then
      pure { s3 with punished := epochHalve s3.punished }
    else pure s3
  let s5 := { s4 with punished := punishMissing s4.punished he.signerMissing }
  let s6 := { s5 with punished := rewardSigner s5.punished h.coinbase }
  pure (σ3, s6)

/-- The references stored in the tally map. -/
def tallyRefs (t : List (Address × Ref)) : List Ref := t.map Prod.snd

/-- The vote-expiry loop of `apply` (snapshot.go:254-270).  `pending` is
the list of voter entries present when the loop starts; Go only ever
deletes the entry currently being visited, so every other entry is still
visited even while the map shrinks.  The break condition is re-checked
before every entry, and a missing tally entry for an expired vote's
candidate is a nil-receiver panic (line 262). -/
def expireGo (cfg : AlienConfig) : List (Address × Ref) → Store → Snapshot →
    Except ApplyError (Store × Snapshot)
  | [], σ, s => Except.ok (σ, s)
  | (vaddr, nref) :: rest, σ, s =>
    if s.voters.length ≤ cfg.maxSignerCount ∨ s.tally.length ≤ cfg.maxSignerCount then
      Except.ok (σ, s)
    else if u64sub s.number (bigUint64 (storeRead σ nref)) > cfg.epoch then
      match lookupA s.votes vaddr with
      | some ev =>
        match lookupA s.tally ev.candidate with
        | none => Except.error ApplyError.nilTallyPanic
        | some tr =>
          let σ2 := storeWrite σ tr (storeRead σ tr - storeRead σ ev.stake)
          let tally2 := if storeRead σ2 tr = 0 then eraseA s.tally ev.candidate else s.tally
          expireGo cfg rest σ2 { s with tally := tally2,
                                        votes := eraseA s.votes ev.voter,
                                        voters := eraseA s.voters ev.voter }
      | none => expireGo cfg rest σ s
    else expireGo cfg rest σ s

/-- The "deal the expired vote" phase of `apply` (snapshot.go:254-270). -/
def dealExpiredVote (cfg : AlienConfig) (σ : Store) (s : Snapshot) :
    Except ApplyError (Store × Snapshot) :=
  expireGo cfg s.voters σ s

/-- The zero/negative tally sweep (snapshot.go:272-276). -/
def sweepTally (σ : Store) (t : List (Address × Ref)) : List (Address × Ref) :=
  t.filter (fun kv => decide (0 < storeRead σ kv.2))

/-- The contiguity check of `apply` (snapshot.go:173-177), `uint64`
comparisons on adjacent headers. -/
def chainOk : List Header → Bool
  | [] => true
  | [_] => true
  | a :: b :: t => decide (u64 b.number = u64 (u64 a.number + 1)) && chainOk (b :: t)

/-- `apply` (snapshot.go:167-279). -/
def apply (cfg : AlienConfig) (σ : Store) (s : Snapshot) (headers : List Header) :
    Except ApplyError (Store × Snapshot) :=
  if headers.length = 0 then Except.ok (σ, s)
  else if chainOk headers = false then Except.error ApplyError.invalidVotingChain
  else if u64 (headers.getD 0 dHeader).number ≠ u64 (s.number + 1) then
    Except.error ApplyError.invalidVotingChain
  else
    (copySnap σ s) |> fun p =>
    (headers.foldlM (applyHeader cfg) p).bind fun q =>
    let snap3 := { q.2 with
      number := u64 (q.2.number + headers.length),
      hash := (headers.getLast?.getD dHeader).hash }
    (dealExpiredVote cfg q.1 snap3).bind fun w =>
    Except.ok (w.1, { w.2 with tally := sweepTally w.1 w.2.tally })

/-- `inturn` (snapshot.go:282-293).  The index is computed in Go `int`
arithmetic: the `uint64` quotient is converted to a signed 64-bit value,
`%` keeps the sign of the dividend, and a negative index reaches
`s.Signers[loopIndex]`, a runtime panic (`none`); `Period = 0` or an empty
signer list is a division by zero. -/
def inturn (cfg : AlienConfig) (s : Snapshot) (signer : Address) (headerTime : Nat) :
    Option Bool :=
  if cfg.period = 0 then none
  else if s.signers.length = 0 then none
  else
    let q := u64sub headerTime s.loopStartTime / cfg.period
    let li := goIntMod (goInt64 q) s.signers.length
    if li ≥ (s.signers.length : Int) then some false
    else if li < 0 then none
    else if s.signers.getD li.toNat 0 ≠ signer then some false
    else some true

/-- `TallyItem` (snapshot.go:295-298); the weight is a freshly computed
`big.Int`, so a plain value here. -/
structure TallyItem where
  addr : Address
  stake : Int
deriving DecidableEq

/-- `TallySlice.Less` (snapshot.go:303): descending by weight. -/
def tallyLess (a b : TallyItem) : Bool := decide (b.stake < a.stake)

/-- Model of Go `sort.Sort` on a `TallySlice`: a sort by `tallyLess`
(Go's algorithm is unspecified up to the order of ties; insertion sort
realizes one such order). -/
def insertSorted (x : TallyItem) : List TallyItem → List TallyItem
  | [] => [x]
  | y :: t => if tallyLess x y then x :: y :: t else y :: insertSorted x t

/-- The sorted tally slice. -/
def sortTally (l : List TallyItem) : List TallyItem := l.foldr insertSorted []

/-- Swap two positions of the queue (snapshot.go:333). -/
def listSwap (l : List Address) (i j : Nat) : List Address :=
  let a := l.getD i 0
  let b := l.getD j 0
  (l.set i b).set j a

/-- The final shuffle loop of `getSignerQueue` (snapshot.go:331-334).
`rng i` models the i-th value drawn from the package-global, unseeded
`rand.Int()` (always non-negative), which is not part of the snapshot. -/
def shuffle (rng : Nat → Nat) (l : List Address) : List Address :=
  (List.range l.length).foldl (fun acc i => listSwap acc i (rng i % l.length)) l

/-- `getSignerQueue` (snapshot.go:306-336).  For a punished candidate the
credit weight is `defaultFullCredit - punished` computed in `uint64`,
floored at `minCalSignerQueueCredit = 300` only when the (possibly
wrapped) value is below 300, and then converted with `int64(...)`. -/
def getSignerQueue (cfg : AlienConfig) (σ : Store) (s : Snapshot) (rng : Nat → Nat) :
    List Address :=
  let items := s.tally.map (fun kv =>
    match lookupA s.punished kv.1 with
    | some p =>
      let cw := u64sub 1000 p
      let cw2 := if cw < 300 then 300 else cw
      TallyItem.mk kv.1 (storeRead σ kv.2 * goInt64 cw2)
    | none => TallyItem.mk kv.1 (storeRead σ kv.2 * 1000))
  let sorted := sortTally items
  let ql := min cfg.maxSignerCount sorted.length
  shuffle rng ((sorted.take ql).map TallyItem.addr)

/-- Sum of all tally cell values of a snapshot. -/
def tallyTotal (σ : Store) (t : List (Address × Ref)) : Int :=
  (t.map (fun kv => storeRead σ kv.2)).sum

/-- Sum of the stakes of all active votes of a snapshot. -/
def votesStakeTotal (σ : Store) (vs : List (Address × Vote)) : Int :=
  (vs.map (fun kv => storeRead σ kv.2.stake)).sum

/-- Build a store from a list of initial cell values. -/
def mkStore (l : List Int) : Store := ⟨l.length, fun x => l.getD x 0⟩

/-! Concrete states used to evaluate the transition at specific inputs. -/

/-- A configuration with `MaxSignerCount = 3`, `Period = 1`, `Epoch = 100`. -/
def cfg3 : AlienConfig := ⟨3, 1, 100, 0, []⟩

/-- Store for the copy-aliasing run: cell 0 is the tally cell of candidate
2 (value 5), cell 1 the stake cell of voter 1's vote (value 5), cell 2 the
block-number cell of voter 1 (value 10). -/
def c1σ : Store := mkStore [5, 5, 10]

/-- Snapshot at height 10 with one vote: voter 1 → candidate 2, stake 5. -/
def c1s : Snapshot := ⟨10, 0, [1], [(1, ⟨1, 2, 1⟩)], [(2, 0)], [(1, 2)], [], 0, 0⟩

/-- Header 11 in which voter 1 re-votes for candidate 2 with stake 7. -/
def c1h : Header := ⟨11, 100, 9, 77, true, some ⟨0, [1], [⟨1, 2, 7⟩], [], []⟩⟩

/-- Snapshot at height 10 with signers and empty ledgers. -/
def c2s : Snapshot := ⟨10, 0, [4, 5], [], [], [], [], 0, 0⟩

/-- Header 11 whose extra-data payload fails to decode. -/
def c2h : Header := ⟨11, 50, 7, 99, true, none⟩

/-- Store holding the two tally cells (stakes 1 and 2) for the shuffle run. -/
def c3σ : Store := mkStore [1, 2]

/-- Snapshot with two candidates: 1 with stake 1, 2 with stake 2. -/
def c3s : Snapshot := ⟨0, 0, [], [], [(1, 0), (2, 1)], [], [], 0, 0⟩

/-- Snapshot at height 10 whose signer 9 has punishment counter 5. -/
def c4s : Snapshot := ⟨10, 0, [1], [], [], [], [(9, 5)], 0, 0⟩

/-- Header 11 sealed by coinbase 9 (no votes, no missing signers). -/
def c4h : Header := ⟨11, 60, 9, 88, true, some ⟨0, [1], [], [], []⟩⟩

/-- Empty genesis-like snapshot at height 0. -/
def c5s : Snapshot := ⟨0, 0, [1], [], [], [], [], 0, 0⟩

/-- Header 1 carrying two votes for candidate 3: voter 1 stake 5 and
voter 2 stake 3. -/
def c5h : Header := ⟨1, 10, 9, 55, true, some ⟨0, [1], [⟨1, 3, 5⟩, ⟨2, 3, 3⟩], [], []⟩⟩

/-- A configuration with `MaxSignerCount = 1`. -/
def c8cfg : AlienConfig := ⟨1, 1, 100, 0, []⟩

/-- Store with tally cells: candidate 1 stake 100, candidate 2 stake 1. -/
def c8σ : Store := mkStore [100, 1]

/-- Snapshot with candidates 1 (stake 100, punishment 1100) and 2 (stake 1,
unpunished). -/
def c8s : Snapshot := ⟨0, 0, [], [], [(1, 0), (2, 1)], [], [(1, 1100)], 0, 0⟩

/-- Snapshot with two signers, `LoopStartTime = 0`. -/
def c9s : Snapshot := ⟨0, 0, [10, 11], [], [], [], [], 0, 0⟩

/-!  Claim theorems. -/

/-- C1: the claim states that `apply` never mutates its input snapshot and
that after `copy()` no mutation of the copy's containers changes the
original's values.  The code violates it: `copy` shares the tally
`*big.Int` cells with the parent (snapshot.go:154) and `apply` runs
`Sub`/`Add` on them in place (snapshot.go:203,207).  Concretely: the
original snapshot's tally cell for candidate 2 (ref 0) holds 5; after
`apply` of a single header in which voter 1 re-votes with stake 7, reading
that same cell of the original snapshot yields 7. -/
theorem c1_apply_mutates_original_tally :
    lookupA c1s.tally 2 = some 0 ∧ storeRead c1σ 0 = 5 ∧
    (Alien.apply cfg3 c1σ c1s [c1h]).toOption.map (fun p => storeRead p.1 0) = some 7 := by
  decide

/-- C2: the claim states that a header whose extra-data fails to decode
makes `apply` return an error and abort.  The code violates it: line 192
discards the error of `rlp.DecodeBytes`, so `apply` proceeds with the
zero-valued record (here wiping the signer list) and returns a snapshot
successfully. -/
theorem c2_decode_failure_not_propagated :
    c2h.extra = none ∧
    (Alien.apply cfg3 (mkStore []) c2s [c2h]).toOption.map (fun p => p.2.signers) =
      some [] := by
  decide

/-- C3: the claim states that `getSignerQueue` is deterministic given the
snapshot's public fields.  The code violates it: the final permutation
draws from the package-global, unseeded `rand.Int()` (snapshot.go:332), so
the same snapshot yields different queues for different generator
states (modelled by the `rng` stream). -/
theorem c3_queue_depends_on_global_rand :
    getSignerQueue cfg3 c3σ c3s (fun _ => 0) ≠ getSignerQueue cfg3 c3σ c3s (fun i => i) := by
  decide

/-- C4: the claim states that the reward step's subtraction cannot wrap
below zero and removes entries that would reach zero or below.  The code
violates it: the counter is a `uint64`, `Punished[coinbase] -= 10` wraps,
and the `<= 0` check only catches exactly zero.  Concretely, a counter of
5 (reachable, e.g. 100 halved twice to 25, then two sealed blocks) becomes
`2^64 - 5` after sealing: -/
theorem c4_punish_counter_underflow :
    lookupA c4s.punished 9 = some 5 ∧
    (Alien.apply cfg3 (mkStore []) c4s [c4h]).toOption.map
      (fun p => lookupA p.2.punished 9) = some (some (2 ^ 64 - 5)) := by
  decide

/-- C5: the claim states that after `apply` the sum of all tally values
equals the sum of the stakes of all active votes.  The code violates it:
when a candidate's first vote creates the tally entry, line 209 makes the
tally point at that vote's own stake cell, which line 212 also stores in
the votes map; a later `Add` for the same candidate (line 207) then
mutates the first voter's recorded stake.  Concretely, applying votes
(voter 1 → candidate 3, stake 5) and (voter 2 → candidate 3, stake 3)
to an empty snapshot yields tally sum 8 but vote-stake sum 11. -/
theorem c5_tally_vote_sum_mismatch :
    (Alien.apply cfg3 (mkStore []) c5s [c5h]).toOption.map
      (fun p => (tallyTotal p.1 p.2.tally, votesStakeTotal p.1 p.2.votes)) =
      some (8, 11) := by
  decide

/-- C8: the claim states the queue consists of the candidates of highest
weight, a punished candidate's weight being
`stake * max(1000 - punishment, 300)`.  The code contradicts its own
comment ("the credit of one signer is at least minCalSignerQueueCredit"):
for punishment 1100 the `uint64` expression `1000 - 1100` wraps to
`2^64 - 100`, the `< 300` floor test fails, and `int64(...)` turns the
weight factor into `-100`.  Candidate 1 (stake 100, punishment 1100) has
claim-weight `100 * 300 = 30000` versus candidate 2's `1 * 1000 = 1000`,
so with `MaxSignerCount = 1` the claim selects candidate 1 — but the code
computes weight `-10000` for candidate 1 and returns candidate 2. -/
theorem c8_negative_credit_weight :
    storeRead c8σ 0 = 100 ∧ storeRead c8σ 1 = 1 ∧
    lookupA c8s.punished 1 = some 1100 ∧
    getSignerQueue c8cfg c8σ c8s (fun _ => 0) = [2] := by
  decide

/-- C9 (counterexample): the claim states `inturn` returns true exactly
for the signer at index `floor((headerTime - loopStartTime)/Period) mod
len(signers)` and false otherwise.  At `headerTime = 2^63 + 1`,
`loopStartTime = 0`, `Period = 1` and two signers, that index is 1 and the
signer there is 11, so the claim predicts `true` — but the Go `int`
conversion wraps the quotient to a negative value, `%` keeps its sign, and
`s.Signers[loopIndex]` panics (modelled as `none`). -/
theorem c9_inturn_counterexample :
    inturn cfg3 c9s 11 (2 ^ 63 + 1) = none ∧
    c9s.signers.getD
      ((u64sub (2 ^ 63 + 1) c9s.loopStartTime / cfg3.period) % c9s.signers.length) 0 =
      11 := by
  decide

/-- C10: in `apply`'s reward step, a coinbase with no punishment entry
leaves the punished map unchanged — rewarding never creates an entry
(snapshot.go:244 guards on presence). -/
theorem c10_reward_no_new_entry (p : List (Address × Nat)) (cb : Address)
    (h : lookupA p cb = none) : rewardSigner p cb = p := by
  simp [rewardSigner, h]

/-- Witness for C10 at a concrete punished map and coinbase. -/
theorem c10_reward_no_new_entry_witness :
    lookupA ([(3, 70)] : List (Address × Nat)) 5 = none ∧
    rewardSigner [(3, 70)] 5 = [(3, 70)] :=
  ⟨by decide, c10_reward_no_new_entry _ _ (by decide)⟩

/-- C9 (amended): whenever the elapsed-time quotient
`(headerTime - loopStartTime) / Period` (uint64 difference) stays below
`2^63` — so the Go `int` conversion does not wrap — `inturn` returns true
exactly for the signer at that quotient modulo the signer count, and false
for every other signer. -/
theorem c9_inturn_amended (cfg : AlienConfig) (s : Snapshot) (g : Address) (ht : Nat)
    (hp : 0 < cfg.period) (hs : s.signers.length ≠ 0)
    (hq : u64sub ht s.loopStartTime / cfg.period < 2 ^ 63) :
    inturn cfg s g ht =
      some (decide (s.signers.getD
        (u64sub ht s.loopStartTime / cfg.period % s.signers.length) 0 = g)) := by
  have h2 : (2 : Nat) ^ 63 < 2 ^ 64 := by norm_num
  have hq64 : u64 (u64sub ht s.loopStartTime / cfg.period) =
      u64sub ht s.loopStartTime / cfg.period :=
    Nat.mod_eq_of_lt (lt_trans hq h2)
  have hgi : goInt64 (u64sub ht s.loopStartTime / cfg.period) =
      ((u64sub ht s.loopStartTime / cfg.period : Nat) : Int) := by
    unfold goInt64
    rw [hq64, if_pos hq]
  have hmod : goIntMod ((u64sub ht s.loopStartTime / cfg.period : Nat) : Int)
      s.signers.length =
      ((u64sub ht s.loopStartTime / cfg.period % s.signers.length : Nat) : Int) := by
    unfold goIntMod
    rw [if_pos (Int.natCast_nonneg _), Int.toNat_natCast]
  have hmlt : u64sub ht s.loopStartTime / cfg.period % s.signers.length <
      s.signers.length := Nat.mod_lt _ (Nat.pos_of_ne_zero hs)
  simp only [inturn, hgi, hmod]
  rw [if_neg (by omega : ¬ cfg.period = 0), if_neg hs,
    if_neg (by exact_mod_cast not_le.mpr hmlt),
    if_neg (by exact_mod_cast not_lt.mpr (Nat.zero_le _))]
  simp only [Int.toNat_natCast]
  split <;> simp_all

/-- Witness for the amended C9 at a concrete snapshot and time. -/
theorem c9_inturn_amended_witness :
    (0 < cfg3.period ∧ c9s.signers.length ≠ 0 ∧
      u64sub 5 c9s.loopStartTime / cfg3.period < 2 ^ 63) ∧
    inturn cfg3 c9s 11 5 = some true := by
  refine ⟨by decide, ?_⟩
  have h := c9_inturn_amended cfg3 c9s 11 5 (by decide) (by decide) (by decide)
  rw [h]
  decide

/-- On in-range block numbers the `uint64` contiguity check of `apply`
implies plain consecutiveness of the header numbers. -/
theorem chainOk_imp_consecutive (hs : List Header)
    (hb : ∀ h ∈ hs, h.number + 1 < 2 ^ 64) (hok : chainOk hs = true) :
    ∀ i, i + 1 < hs.length →
      (hs.getD (i + 1) dHeader).number = (hs.getD i dHeader).number + 1 := by
  induction hs with
  | nil => intro i hi; simp at hi
  | cons a t ih =>
    cases t with
    | nil => intro i hi; simp at hi
    | cons b t2 =>
      simp only [chainOk, Bool.and_eq_true, decide_eq_true_eq] at hok
      obtain ⟨h1, h2⟩ := hok
      have ha : a.number + 1 < 2 ^ 64 := hb a (by simp)
      have hbn : b.number + 1 < 2 ^ 64 := hb b (by simp)
      have h1' : b.number = a.number + 1 := by
        simp only [u64] at h1
        omega
      intro i hi
      cases i with
      | zero => simpa using h1'
      | succ j =>
        have hr := ih (fun h hm => hb h (List.mem_cons_of_mem _ hm)) h2 j (by simpa using hi)
        simpa using hr

/-- C6: `apply` with an empty header list returns the input snapshot
unchanged; with a non-empty list whose numbers (as uint64 values, which
the in-range hypotheses guarantee) are not strictly consecutive, or whose
first number is not `snapshot.number + 1`, it fails with
`invalidVotingChain` and returns no snapshot. -/
theorem c6_apply_preconditions (cfg : AlienConfig) (σ : Store) (s : Snapshot)
    (headers : List Header)
    (hb : ∀ h ∈ headers, h.number + 1 < 2 ^ 64) (hsn : s.number + 1 < 2 ^ 64) :
    Alien.apply cfg σ s [] = Except.ok (σ, s) ∧
    (headers ≠ [] →
      ((¬ ∀ i, i + 1 < headers.length →
          (headers.getD (i + 1) dHeader).number = (headers.getD i dHeader).number + 1) ∨
        (headers.getD 0 dHeader).number ≠ s.number + 1) →
      Alien.apply cfg σ s headers = Except.error ApplyError.invalidVotingChain) := by
  refine ⟨rfl, ?_⟩
  intro hne hviol
  unfold Alien.apply
  rw [if_neg (by simpa using hne)]
  cases hc : chainOk headers with
  | false => rw [if_pos rfl]
  | true =>
    rw [if_neg (by simp : ¬ (true = false))]
    rcases hviol with hnc | hhd
    · exact absurd (chainOk_imp_consecutive headers hb hc) hnc
    · obtain ⟨h0, t, rfl⟩ := List.exists_cons_of_ne_nil hne
      have hh0 : h0.number + 1 < 2 ^ 64 := hb h0 (by simp)
      rw [if_pos]
      simp only [List.getD_cons_zero] at hhd ⊢
      simp only [u64]
      rw [Nat.mod_eq_of_lt (by omega), Nat.mod_eq_of_lt hsn]
      exact hhd

/-! Store and association-list lemmas used by the expiry analysis. -/

/-- Reading the cell just written. -/
theorem storeRead_write_self (σ : Store) (r : Ref) (v : Int) :
    storeRead (storeWrite σ r v) r = v := by
  simp [storeRead, storeWrite]

/-- Reading another cell after a write. -/
theorem storeRead_write_ne (σ : Store) (r : Ref) (v : Int) (x : Ref) (h : x ≠ r) :
    storeRead (storeWrite σ r v) x = storeRead σ x := by
  simp [storeRead, storeWrite, h]

/-- Deleting a key yields a sublist. -/
theorem eraseA_sublist {V : Type} (m : List (Address × V)) (k : Address) :
    (eraseA m k).Sublist m := by
  induction m with
  | nil => simp [eraseA]
  | cons p t ih =>
    obtain ⟨pk, pv⟩ := p
    simp only [eraseA]
    split
    · exact List.Sublist.cons _ (List.Sublist.refl t)
    · exact ih.cons₂ _

/-- A lookup misses exactly when the key is absent. -/
theorem lookupA_eq_none_iff {V : Type} (m : List (Address × V)) (a : Address) :
    lookupA m a = none ↔ a ∉ m.map Prod.fst := by
  induction m with
  | nil => simp [lookupA]
  | cons p t ih =>
    obtain ⟨pk, pv⟩ := p
    simp only [lookupA, List.map_cons, List.mem_cons]
    split
    · next hk => subst hk; simp
    · next hk =>
      rw [ih]
      constructor
      · intro hna hor
        rcases hor with he | hm
        · exact hk he.symm
        · exact hna hm
      · intro hno hm
        exact hno (Or.inr hm)

/-- A successful lookup returns an entry of the list. -/
theorem mem_of_lookupA_some {V : Type} {m : List (Address × V)} {a : Address} {v : V}
    (h : lookupA m a = some v) : (a, v) ∈ m := by
  induction m with
  | nil => simp [lookupA] at h
  | cons p t ih =>
    obtain ⟨pk, pv⟩ := p
    simp only [lookupA] at h
    split at h
    · next hk => subst hk; cases h; simp
    · next hk => exact List.mem_cons_of_mem _ (ih h)

/-- With distinct keys, membership determines the lookup. -/
theorem lookupA_of_mem_nodup {V : Type} {m : List (Address × V)} {a : Address} {v : V}
    (hn : (m.map Prod.fst).Nodup) (h : (a, v) ∈ m) : lookupA m a = some v := by
  induction m with
  | nil => simp at h
  | cons p t ih =>
    obtain ⟨pk, pv⟩ := p
    simp only [List.map_cons, List.nodup_cons] at hn
    rcases List.mem_cons.mp h with heq | hmem
    · cases heq; simp [lookupA]
    · have hne : pk ≠ a := by
        intro he
        subst he
        exact hn.1 (List.mem_map_of_mem Prod.fst hmem)
      rw [lookupA, if_neg hne]
      exact ih hn.2 hmem

/-- Deleting a different key does not change a lookup. -/
theorem lookupA_eraseA_of_ne {V : Type} (m : List (Address × V)) (k a : Address)
    (h : k ≠ a) : lookupA (eraseA m k) a = lookupA m a := by
  induction m with
  | nil => rfl
  | cons p t ih =>
    obtain ⟨pk, pv⟩ := p
    simp only [eraseA]
    split
    · next hk =>
      subst hk
      rw [lookupA, if_neg (by exact h)]
    · next hk =>
      rw [lookupA, lookupA]
      split
      · rfl
      · exact ih

/-- With distinct keys, the deleted key can no longer be looked up. -/
theorem lookupA_eraseA_self {V : Type} (m : List (Address × V)) (k : Address)
    (hn : (m.map Prod.fst).Nodup) : lookupA (eraseA m k) k = none := by
  induction m with
  | nil => rfl
  | cons p t ih =>
    obtain ⟨pk, pv⟩ := p
    simp only [List.map_cons, List.nodup_cons] at hn
    simp only [eraseA]
    split
    · next hk =>
      subst hk
      rw [lookupA_eq_none_iff]
      exact hn.1
    · next hk =>
      rw [lookupA, if_neg hk]
      exact ih hn.2

/-- Deleting a key removes at most one entry. -/
theorem length_eraseA {V : Type} (m : List (Address × V)) (k : Address) :
    m.length - 1 ≤ (eraseA m k).length ∧ (eraseA m k).length ≤ m.length := by
  induction m with
  | nil => simp [eraseA]
  | cons p t ih =>
    obtain ⟨pk, pv⟩ := p
    simp only [eraseA]
    split
    · simp only [List.length_cons]
      omega
    · simp only [List.length_cons]
      omega

/-- A tally lookup's reference is among the tally references. -/
theorem ref_mem_of_lookupA {t : List (Address × Ref)} {c : Address} {r : Ref}
    (h : lookupA t c = some r) : r ∈ tallyRefs t :=
  List.mem_map_of_mem Prod.snd (mem_of_lookupA_some h)

/-- Lifting a successful lookup through a deletion (distinct keys). -/
theorem lookupA_some_of_eraseA {V : Type} {m : List (Address × V)} {k a : Address} {v : V}
    (hn : (m.map Prod.fst).Nodup) (h : lookupA (eraseA m k) a = some v) :
    lookupA m a = some v := by
  by_cases hk : k = a
  · subst hk
    rw [lookupA_eraseA_self m k hn] at h
    cases h
  · rw [lookupA_eraseA_of_ne m k a hk] at h
    exact h

/-- With pairwise-distinct tally references, different candidates own
different cells. -/
theorem refs_ne_of_lookupA {t : List (Address × Ref)} {c1 c2 : Address} {r1 r2 : Ref}
    (htn : (tallyRefs t).Nodup) (h1 : lookupA t c1 = some r1)
    (h2 : lookupA t c2 = some r2) (hne : c1 ≠ c2) : r1 ≠ r2 := by
  intro he
  have m1 := mem_of_lookupA_some h1
  have m2 := mem_of_lookupA_some h2
  have heq := List.inj_on_of_nodup_map (f := Prod.snd) htn m1 m2 (by simpa using he)
  exact hne (by cases heq; rfl)

/-- A missing key stays missing after deleting any key. -/
theorem lookupA_eraseA_none {V : Type} {m : List (Address × V)} (k v : Address)
    (h : lookupA m v = none) : lookupA (eraseA m k) v = none := by
  rw [lookupA_eq_none_iff] at h ⊢
  intro hm
  exact h (((eraseA_sublist m k).map Prod.fst).subset hm)

/-- Frame and monotonicity facts about the expiry loop (snapshot.go:254-270):
it writes only to tally cells of the snapshot it starts from, missing keys
stay missing, the tally reference set only shrinks, and the voter and
candidate counts are never pruned below `MaxSignerCount`. -/
theorem expireGo_frame (cfg : AlienConfig) (pending : List (Address × Ref))
    (σ : Store) (s : Snapshot) (σ2 : Store) (s2 : Snapshot)
    (h : expireGo cfg pending σ s = Except.ok (σ2, s2)) :
    (∀ r, r ∉ tallyRefs s.tally → storeRead σ2 r = storeRead σ r) ∧
    (∀ v, lookupA s.voters v = none → lookupA s2.voters v = none) ∧
    (∀ v, lookupA s.votes v = none → lookupA s2.votes v = none) ∧
    (∀ c, lookupA s.tally c = none → lookupA s2.tally c = none) ∧
    (∀ r, r ∈ tallyRefs s2.tally → r ∈ tallyRefs s.tally) ∧
    min s.voters.length cfg.maxSignerCount ≤ s2.voters.length ∧
    min s.tally.length cfg.maxSignerCount ≤ s2.tally.length := by
  induction pending generalizing σ s with
  | nil =>
    simp only [expireGo, Except.ok.injEq, Prod.mk.injEq] at h
    obtain ⟨rfl, rfl⟩ := h
    exact ⟨fun r _ => rfl, fun v hv => hv, fun v hv => hv, fun c hc => hc,
      fun r hr => hr, Nat.min_le_left _ _, Nat.min_le_left _ _⟩
  | cons p rest ih =>
    obtain ⟨vaddr, nref⟩ := p
    rw [expireGo] at h
    split at h
    · next hbrk =>
      simp only [Except.ok.injEq, Prod.mk.injEq] at h
      obtain ⟨rfl, rfl⟩ := h
      exact ⟨fun r _ => rfl, fun v hv => hv, fun v hv => hv, fun c hc => hc,
        fun r hr => hr, Nat.min_le_left _ _, Nat.min_le_left _ _⟩
    · next hbrk =>
      push_neg at hbrk
      split at h
      · next hstale =>
        split at h
        · next ev hev =>
          split at h
          · next htr => exact (Except.noConfusion h)
          · next tr htr =>
            have IH := ih _ _ h
            have htrm : tr ∈ tallyRefs s.tally := ref_mem_of_lookupA htr
            have hsub : ∀ x, x ∈ tallyRefs
                (if storeRead (storeWrite σ tr (storeRead σ tr - storeRead σ ev.stake)) tr = 0
                  then eraseA s.tally ev.candidate else s.tally) →
                x ∈ tallyRefs s.tally := by
              intro x hx
              split at hx
              · exact ((eraseA_sublist s.tally ev.candidate).map Prod.snd).subset hx
              · exact hx
            refine ⟨?_, ?_, ?_, ?_, ?_, ?_, ?_⟩
            · intro r hr
              have hrtr : r ≠ tr := fun he => hr (he ▸ htrm)
              have h1 := IH.1 r (fun hm => hr (hsub r hm))
              rw [h1, storeRead_write_ne _ _ _ _ hrtr]
            · intro v hv
              exact IH.2.1 v (lookupA_eraseA_none _ _ hv)
            · intro v hv
              exact IH.2.2.1 v (lookupA_eraseA_none _ _ hv)
            · intro c hc
              refine IH.2.2.2.1 c ?_
              split
              · exact lookupA_eraseA_none _ _ hc
              · exact hc
            · intro r hr
              exact hsub r (IH.2.2.2.2.1 r hr)
            · have e1 := (length_eraseA s.voters ev.voter).1
              have e2 := IH.2.2.2.2.2.1
              dsimp only at e2
              omega
            · have e2 := IH.2.2.2.2.2.2
              dsimp only at e2
              have e1 : s.tally.length - 1 ≤ (if storeRead (storeWrite σ tr
                  (storeRead σ tr - storeRead σ ev.stake)) tr = 0
                  then eraseA s.tally ev.candidate else s.tally).length := by
                split
                · exact (length_eraseA s.tally ev.candidate).1
                · omega
              omega
        · next hev =>
          exact ih _ _ h
      · next hstale =>
        exact ih _ _ h

/-- Sums of pointwise-equal reads agree. -/
theorem mapSum_congr (l : List Vote) (f g : Vote → Int) (h : ∀ x ∈ l, f x = g x) :
    (l.map f).sum = (l.map g).sum := by
  induction l with
  | nil => rfl
  | cons a t ih =>
    simp only [List.map_cons, List.sum_cons]
    rw [h a (by simp), ih (fun x hx => h x (List.mem_cons_of_mem _ hx))]

/-- With distinct keys and distinct references, deleting a candidate's
entry removes its cell from the tally references. -/
theorem ref_not_mem_eraseA {m : List (Address × Ref)} {c : Address} {r : Ref}
    (hk : (m.map Prod.fst).Nodup) (hr : (tallyRefs m).Nodup)
    (h : lookupA m c = some r) : r ∉ tallyRefs (eraseA m c) := by
  induction m with
  | nil => simp [lookupA] at h
  | cons p t ih =>
    obtain ⟨pk, pv⟩ := p
    simp only [List.map_cons, List.nodup_cons] at hk
    simp only [tallyRefs, List.map_cons, List.nodup_cons] at hr
    simp only [lookupA] at h
    simp only [eraseA]
    split
    · next hpk =>
      rw [if_pos hpk] at h
      cases h
      simpa [tallyRefs] using hr.1
    · next hpk =>
      rw [if_neg hpk] at h
      simp only [tallyRefs, List.map_cons, List.mem_cons]
      rintro (he | hm)
      · have hrm : r ∈ List.map Prod.snd t := by
          simpa [tallyRefs] using ref_mem_of_lookupA h
        exact hr.1 (he ▸ hrm)
      · exact ih hk.2 hr.2 h hm

/-- Characterization of the removals performed by the expiry loop
(snapshot.go:254-270), under well-formedness of the heap layout: tally
cells are pairwise distinct and not aliased by vote stakes or by the
pending voter-number cells, the votes map is key-consistent, and all map
keys are distinct.  On a successful run there is a list `rems` of removed
votes such that: each was an active vote; each belonged to a stale pending
voter; each removed voter is gone from `voters`/`votes`; only they are
removed; each removed vote's candidate had a tally entry; every tally cell
ends at its initial value minus the removed stakes of its candidate; a
candidate deleted from the tally ends with cell value zero; and if neither
count ended at or below `MaxSignerCount` then every stale pending voter
with an active vote was removed. -/
theorem expireGo_removals (cfg : AlienConfig) (pending : List (Address × Ref))
    (σ : Store) (s : Snapshot) (σ2 : Store) (s2 : Snapshot)
    (h : expireGo cfg pending σ s = Except.ok (σ2, s2))
    (htn : (tallyRefs s.tally).Nodup)
    (hsd : ∀ p ∈ s.votes, (Prod.snd p).stake ∉ tallyRefs s.tally)
    (hpd : ∀ p ∈ pending, Prod.snd p ∉ tallyRefs s.tally)
    (hvc : ∀ p ∈ s.votes, (Prod.snd p).voter = Prod.fst p)
    (hvn : (s.votes.map Prod.fst).Nodup)
    (hon : (s.voters.map Prod.fst).Nodup)
    (hkn : (s.tally.map Prod.fst).Nodup)
    (hpn : (pending.map Prod.fst).Nodup) :
    ∃ rems : List Vote,
      (∀ vt ∈ rems, lookupA s.votes vt.voter = some vt) ∧
      (∀ vt ∈ rems, ∃ r, (vt.voter, r) ∈ pending ∧
        u64sub s.number (bigUint64 (storeRead σ r)) > cfg.epoch) ∧
      (∀ vt ∈ rems, lookupA s2.voters vt.voter = none ∧
        lookupA s2.votes vt.voter = none) ∧
      (∀ v, lookupA s.voters v ≠ none → lookupA s2.voters v = none →
        v ∈ rems.map Vote.voter) ∧
      (∀ vt ∈ rems, lookupA s.tally vt.candidate ≠ none) ∧
      (∀ c tr, lookupA s.tally c = some tr →
        storeRead σ2 tr = storeRead σ tr -
          ((rems.filter (fun vt => vt.candidate = c)).map
            (fun vt => storeRead σ vt.stake)).sum) ∧
      (∀ c tr, lookupA s.tally c = some tr → lookupA s2.tally c = none →
        storeRead σ2 tr = 0) ∧
      (∀ c tr, lookupA s.tally c = some tr →
        rems.filter (fun vt => vt.candidate = c) ≠ [] →
        storeRead σ2 tr = 0 → lookupA s2.tally c = none) ∧
      ((cfg.maxSignerCount < s2.voters.length ∧ cfg.maxSignerCount < s2.tally.length) →
        ∀ q ∈ pending,
          u64sub s.number (bigUint64 (storeRead σ (Prod.snd q))) > cfg.epoch →
          lookupA s.votes (Prod.fst q) ≠ none →
          Prod.fst q ∈ rems.map Vote.voter) := by
  induction pending generalizing σ s htn hsd hvc hvn hon hkn with
  | nil =>
    simp only [expireGo, Except.ok.injEq, Prod.mk.injEq] at h
    obtain ⟨rfl, rfl⟩ := h
    refine ⟨[], by simp, by simp, by simp, ?_, by simp, ?_, ?_, ?_, ?_⟩
    · intro v hv hv2
      exact absurd hv2 hv
    · intro c tr htr
      simp
    · intro c tr htr h2
      rw [htr] at h2
      cases h2
    · intro c tr htr hne h0
      simp at hne
    · intro hcnt q hq
      simp at hq
  | cons p rest ih =>
    obtain ⟨vaddr, nref⟩ := p
    rw [expireGo] at h
    split at h
    · next hbrk =>
      simp only [Except.ok.injEq, Prod.mk.injEq] at h
      obtain ⟨rfl, rfl⟩ := h
      refine ⟨[], by simp, by simp, by simp, ?_, by simp, ?_, ?_, ?_, ?_⟩
      · intro v hv hv2
        exact absurd hv2 hv
      · intro c tr htr
        simp
      · intro c tr htr h2
        rw [htr] at h2
        cases h2
      · intro c tr htr hne h0
        simp at hne
      · intro hcnt q hq
        rcases hbrk with hb | hb
        · omega
        · omega
    · next hbrk =>
      push_neg at hbrk
      split at h
      · next hstale =>
        split at h
        · next ev hev =>
          split at h
          · next htrn => exact (Except.noConfusion h)
          · next tr htr =>
            have hevv : ev.voter = vaddr := hvc _ (mem_of_lookupA_some hev)
            have htrm : tr ∈ tallyRefs s.tally := ref_mem_of_lookupA htr
            have hzsub : ∀ x, x ∈ tallyRefs
                (if storeRead (storeWrite σ tr (storeRead σ tr - storeRead σ ev.stake)) tr = 0
                  then eraseA s.tally ev.candidate else s.tally) →
                x ∈ tallyRefs s.tally := by
              intro x hx
              split at hx
              · exact ((eraseA_sublist s.tally ev.candidate).map Prod.snd).subset hx
              · exact hx
            have IH := ih _ _ h
              (by
                dsimp only
                split
                · exact ((eraseA_sublist s.tally ev.candidate).map Prod.snd).nodup htn
                · exact htn)
              (by
                dsimp only
                intro q hq hmem
                exact hsd q ((eraseA_sublist s.votes ev.voter).subset hq) (hzsub _ hmem))
              (by
                dsimp only
                intro q hq hmem
                exact hpd q (List.mem_cons_of_mem _ hq) (hzsub _ hmem))
              (by
                dsimp only
                intro q hq
                exact hvc q ((eraseA_sublist s.votes ev.voter).subset hq))
              (by
                dsimp only
                exact ((eraseA_sublist s.votes ev.voter).map Prod.fst).nodup hvn)
              (by
                dsimp only
                exact ((eraseA_sublist s.voters ev.voter).map Prod.fst).nodup hon)
              (by
                dsimp only
                split
                · exact ((eraseA_sublist s.tally ev.candidate).map Prod.fst).nodup hkn
                · exact hkn)
              (List.Nodup.of_cons hpn)
            obtain ⟨rems, IH1, IH2, IH3, IH4, IH5, IH6, IH7, IH7b, IH8⟩ := IH
            dsimp only at IH1 IH2 IH3 IH4 IH5 IH6 IH7 IH7b IH8
            have hframe := expireGo_frame cfg rest _ _ _ _ h
            dsimp only at hframe
            have hliftvotes : ∀ vt ∈ rems, lookupA s.votes vt.voter = some vt :=
              fun vt hvt => lookupA_some_of_eraseA hvn (IH1 vt hvt)
            have hstk : ∀ vt ∈ rems, storeRead (storeWrite σ tr
                (storeRead σ tr - storeRead σ ev.stake)) vt.stake = storeRead σ vt.stake := by
              intro vt hvt
              have hm := mem_of_lookupA_some (hliftvotes vt hvt)
              have hns : vt.stake ∉ tallyRefs s.tally := hsd _ hm
              exact storeRead_write_ne _ _ _ _ (fun he => hns (he ▸ htrm))
            refine ⟨ev :: rems, ?_, ?_, ?_, ?_, ?_, ?_, ?_, ?_, ?_⟩
            · intro vt hvt
              rcases List.mem_cons.mp hvt with rfl | hvt2
              · rw [hevv]
                exact hev
              · exact hliftvotes vt hvt2
            · intro vt hvt
              rcases List.mem_cons.mp hvt with rfl | hvt2
              · exact ⟨nref, by rw [hevv]; exact List.mem_cons_self _ _, hstale⟩
              · obtain ⟨r, hrm, hrs⟩ := IH2 vt hvt2
                refine ⟨r, List.mem_cons_of_mem _ hrm, ?_⟩
                have hnr : r ∉ tallyRefs s.tally := hpd _ (List.mem_cons_of_mem _ hrm)
                have hne : r ≠ tr := fun he => hnr (by rw [he]; exact htrm)
                rwa [storeRead_write_ne _ _ _ _ hne] at hrs
            · intro vt hvt
              rcases List.mem_cons.mp hvt with rfl | hvt2
              · constructor
                · exact hframe.2.1 _ (lookupA_eraseA_self s.voters _ hon)
                · exact hframe.2.2.1 _ (lookupA_eraseA_self s.votes _ hvn)
              · exact IH3 vt hvt2
            · intro v hv hv2
              by_cases hv0 : v = ev.voter
              · subst hv0
                simp
              · have hlift : lookupA (eraseA s.voters ev.voter) v = lookupA s.voters v :=
                  lookupA_eraseA_of_ne _ _ _ (fun he => hv0 he.symm)
                have := IH4 v (by rw [hlift]; exact hv) hv2
                simp only [List.map_cons, List.mem_cons]
                exact Or.inr this
            · intro vt hvt
              rcases List.mem_cons.mp hvt with rfl | hvt2
              · rw [htr]
                exact fun he => Option.noConfusion he
              · intro hnone
                refine IH5 vt hvt2 ?_
                split
                · exact lookupA_eraseA_none _ _ hnone
                · exact hnone
            · intro c tr0 htr0
              by_cases hc : c = ev.candidate
              · subst hc
                have htreq : tr0 = tr := by
                  rw [htr0] at htr
                  exact Option.some.inj htr
                subst htreq
                rw [List.filter_cons, if_pos (by simp)]
                by_cases hz : storeRead (storeWrite σ tr0
                    (storeRead σ tr0 - storeRead σ ev.stake)) tr0 = 0
                · have hdel : (if storeRead (storeWrite σ tr0
                      (storeRead σ tr0 - storeRead σ ev.stake)) tr0 = 0
                      then eraseA s.tally ev.candidate else s.tally) =
                      eraseA s.tally ev.candidate := if_pos hz
                  have hnm : tr0 ∉ tallyRefs (eraseA s.tally ev.candidate) :=
                    ref_not_mem_eraseA hkn htn htr
                  have hfr := hframe.1 tr0 (by rw [hdel]; exact hnm)
                  have hempty : rems.filter (fun vt => vt.candidate = ev.candidate) = [] := by
                    rw [List.filter_eq_nil_iff]
                    intro vt hvt hcand
                    have h5 := IH5 vt hvt
                    rw [hdel] at h5
                    simp only [decide_eq_true_eq] at hcand
                    rw [hcand] at h5
                    exact h5 (lookupA_eraseA_self s.tally _ hkn)
                  rw [hfr, hz, hempty]
                  have := storeRead_write_self σ tr0 (storeRead σ tr0 - storeRead σ ev.stake)
                  rw [this] at hz
                  simp only [List.map_cons, List.map_nil, List.sum_cons, List.sum_nil]
                  omega
                · have hkeep : (if storeRead (storeWrite σ tr0
                      (storeRead σ tr0 - storeRead σ ev.stake)) tr0 = 0
                      then eraseA s.tally ev.candidate else s.tally) = s.tally := if_neg hz
                  have h6 := IH6 ev.candidate tr0 (by rw [hkeep]; exact htr)
                  rw [h6, storeRead_write_self]
                  have hsum := mapSum_congr (rems.filter (fun vt => vt.candidate = ev.candidate))
                    (fun vt => storeRead (storeWrite σ tr0
                      (storeRead σ tr0 - storeRead σ ev.stake)) vt.stake)
                    (fun vt => storeRead σ vt.stake)
                    (fun vt hvt => hstk vt (List.mem_of_mem_filter hvt))
                  rw [hsum]
                  simp only [List.map_cons, List.sum_cons]
                  omega
              · have htreq : tr0 ≠ tr := refs_ne_of_lookupA htn htr0 htr hc
                have hlift : lookupA (if storeRead (storeWrite σ tr
                    (storeRead σ tr - storeRead σ ev.stake)) tr = 0
                    then eraseA s.tally ev.candidate else s.tally) c = some tr0 := by
                  split
                  · rw [lookupA_eraseA_of_ne _ _ _ (fun he => hc he.symm)]
                    exact htr0
                  · exact htr0
                have h6 := IH6 c tr0 hlift
                rw [h6, storeRead_write_ne _ _ _ _ htreq]
                have hsum := mapSum_congr (rems.filter (fun vt => vt.candidate = c))
                  (fun vt => storeRead (storeWrite σ tr
                    (storeRead σ tr - storeRead σ ev.stake)) vt.stake)
                  (fun vt => storeRead σ vt.stake)
                  (fun vt hvt => hstk vt (List.mem_of_mem_filter hvt))
                rw [hsum, List.filter_cons]
                simp only [decide_eq_true_eq]
                rw [if_neg (fun he => hc he.symm)]
            · intro c tr0 htr0 hnone2
              by_cases hc : c = ev.candidate
              · subst hc
                have htreq : tr0 = tr := by
                  rw [htr0] at htr
                  exact Option.some.inj htr
                subst htreq
                by_cases hz : storeRead (storeWrite σ tr0
                    (storeRead σ tr0 - storeRead σ ev.stake)) tr0 = 0
                · have hdel : (if storeRead (storeWrite σ tr0
                      (storeRead σ tr0 - storeRead σ ev.stake)) tr0 = 0
                      then eraseA s.tally ev.candidate else s.tally) =
                      eraseA s.tally ev.candidate := if_pos hz
                  have hnm : tr0 ∉ tallyRefs (eraseA s.tally ev.candidate) :=
                    ref_not_mem_eraseA hkn htn htr
                  have hfr := hframe.1 tr0 (by rw [hdel]; exact hnm)
                  rw [hfr]
                  exact hz
                · have hkeep : (if storeRead (storeWrite σ tr0
                      (storeRead σ tr0 - storeRead σ ev.stake)) tr0 = 0
                      then eraseA s.tally ev.candidate else s.tally) = s.tally := if_neg hz
                  exact IH7 ev.candidate tr0 (by rw [hkeep]; exact htr) hnone2
              · have hlift : lookupA (if storeRead (storeWrite σ tr
                    (storeRead σ tr - storeRead σ ev.stake)) tr = 0
                    then eraseA s.tally ev.candidate else s.tally) c = some tr0 := by
                  split
                  · rw [lookupA_eraseA_of_ne _ _ _ (fun he => hc he.symm)]
                    exact htr0
                  · exact htr0
                exact IH7 c tr0 hlift hnone2
            · intro c tr0 htr0 hfil h0
              by_cases hc : c = ev.candidate
              · subst hc
                have htreq : tr0 = tr := by
                  rw [htr0] at htr
                  exact Option.some.inj htr
                subst htreq
                by_cases hz : storeRead (storeWrite σ tr0
                    (storeRead σ tr0 - storeRead σ ev.stake)) tr0 = 0
                · have hdel : (if storeRead (storeWrite σ tr0
                      (storeRead σ tr0 - storeRead σ ev.stake)) tr0 = 0
                      then eraseA s.tally ev.candidate else s.tally) =
                      eraseA s.tally ev.candidate := if_pos hz
                  refine hframe.2.2.2.1 ev.candidate ?_
                  rw [hdel]
                  exact lookupA_eraseA_self s.tally _ hkn
                · have hkeep : (if storeRead (storeWrite σ tr0
                      (storeRead σ tr0 - storeRead σ ev.stake)) tr0 = 0
                      then eraseA s.tally ev.candidate else s.tally) = s.tally := if_neg hz
                  by_cases hfe : rems.filter (fun vt => vt.candidate = ev.candidate) = []
                  · exfalso
                    have h6 := IH6 ev.candidate tr0 (by rw [hkeep]; exact htr)
                    rw [hfe] at h6
                    simp only [List.map_nil, List.sum_nil, sub_zero] at h6
                    rw [storeRead_write_self] at h6
                    rw [storeRead_write_self] at hz
                    omega
                  · exact IH7b ev.candidate tr0 (by rw [hkeep]; exact htr) hfe h0
              · have hlift : lookupA (if storeRead (storeWrite σ tr
                    (storeRead σ tr - storeRead σ ev.stake)) tr = 0
                    then eraseA s.tally ev.candidate else s.tally) c = some tr0 := by
                  split
                  · rw [lookupA_eraseA_of_ne _ _ _ (fun he => hc he.symm)]
                    exact htr0
                  · exact htr0
                have hfil2 : rems.filter (fun vt => vt.candidate = c) ≠ [] := by
                  rw [List.filter_cons] at hfil
                  have hcond : ¬(decide (ev.candidate = c) = true) := by
                    simp only [decide_eq_true_eq]
                    exact fun he => hc he.symm
                  rwa [if_neg hcond] at hfil
                exact IH7b c tr0 hlift hfil2 h0
            · intro hcnt q hq hqs hqv
              rcases List.mem_cons.mp hq with rfl | hq2
              · simp only [List.map_cons, List.mem_cons]
                exact Or.inl hevv.symm
              · have hkn0 : Prod.fst q ≠ vaddr := by
                  intro he
                  have hnd := List.nodup_cons.mp (show (vaddr ::
                    List.map Prod.fst rest).Nodup by simpa using hpn)
                  have hmm : Prod.fst q ∈ List.map Prod.fst rest :=
                    List.mem_map_of_mem Prod.fst hq2
                  exact hnd.1 (he ▸ hmm)
                have hnr : Prod.snd q ∉ tallyRefs s.tally :=
                  hpd _ (List.mem_cons_of_mem _ hq2)
                have hne2 : Prod.snd q ≠ tr := fun he => hnr (by rw [he]; exact htrm)
                have hqs2 : u64sub s.number (bigUint64 (storeRead (storeWrite σ tr
                    (storeRead σ tr - storeRead σ ev.stake)) (Prod.snd q))) > cfg.epoch := by
                  rwa [storeRead_write_ne _ _ _ _ hne2]
                have hqv2 : lookupA (eraseA s.votes ev.voter) (Prod.fst q) ≠ none := by
                  rw [lookupA_eraseA_of_ne _ _ _ (by rw [hevv]; exact fun he => hkn0 he.symm)]
                  exact hqv
                have := IH8 hcnt q hq2 hqs2 hqv2
                simp only [List.map_cons, List.mem_cons]
                exact Or.inr this
        · next hev =>
          have IH := ih _ _ h htn hsd
            (fun q hq => hpd q (List.mem_cons_of_mem _ hq)) hvc hvn hon hkn
            (List.Nodup.of_cons hpn)
          obtain ⟨rems, IH1, IH2, IH3, IH4, IH5, IH6, IH7, IH7b, IH8⟩ := IH
          refine ⟨rems, IH1, ?_, IH3, IH4, IH5, IH6, IH7, IH7b, ?_⟩
          · intro vt hvt
            obtain ⟨r, hrm, hrs⟩ := IH2 vt hvt
            exact ⟨r, List.mem_cons_of_mem _ hrm, hrs⟩
          · intro hcnt q hq hqs hqv
            rcases List.mem_cons.mp hq with rfl | hq2
            · exact absurd hqv (by simpa using hev)
            · exact IH8 hcnt q hq2 hqs hqv
      · next hstale =>
        have IH := ih _ _ h htn hsd
          (fun q hq => hpd q (List.mem_cons_of_mem _ hq)) hvc hvn hon hkn
          (List.Nodup.of_cons hpn)
        obtain ⟨rems, IH1, IH2, IH3, IH4, IH5, IH6, IH7, IH7b, IH8⟩ := IH
        refine ⟨rems, IH1, ?_, IH3, IH4, IH5, IH6, IH7, IH7b, ?_⟩
        · intro vt hvt
          obtain ⟨r, hrm, hrs⟩ := IH2 vt hvt
          exact ⟨r, List.mem_cons_of_mem _ hrm, hrs⟩
        · intro hcnt q hq hqs hqv
          rcases List.mem_cons.mp hq with rfl | hq2
          · exact absurd hqs (by simpa using hstale)
          · exact IH8 hcnt q hq2 hqs hqv

/-- For an in-range stored block number the wrapped staleness test of the
expiry loop is plain subtraction. -/
theorem u64sub_in_range (a : Nat) (v : Int) (ha : a < 2 ^ 64) (h0 : 0 ≤ v)
    (hv : v.toNat ≤ a) : u64sub a (bigUint64 v) = a - v.toNat := by
  unfold u64sub bigUint64 u64
  omega

/-- C7: after the header loop, `apply` expires votes only while both the
voter count and the tally count exceed `MaxSignerCount`, stopping as soon
as either drops to the threshold; every removed voter was more than
`Epoch` blocks behind the new snapshot number; the removed votes have
their stakes subtracted from their candidates' tally cells, a tally entry
being deleted exactly when its cell reaches zero (deleted entries read
zero, and an entry whose cell the removals drove to zero is deleted); and
when no early stop
happened every stale voter with an active vote was removed.  Stated of the
expiry phase `dealExpiredVote` on its input state (the post-header-loop
snapshot), for a well-formed heap layout (distinct cells, no aliasing
between tally cells and stake or voter-number cells, consistent and
duplicate-free maps) and in-range block numbers. -/
theorem c7_expiry_characterization (cfg : AlienConfig) (σ σ2 : Store)
    (s s2 : Snapshot)
    (hrun : dealExpiredVote cfg σ s = Except.ok (σ2, s2))
    (hnum : s.number < 2 ^ 64)
    (hvr : ∀ p ∈ s.voters, 0 ≤ storeRead σ (Prod.snd p) ∧
      (storeRead σ (Prod.snd p)).toNat ≤ s.number)
    (htn : (tallyRefs s.tally).Nodup)
    (hsd : ∀ p ∈ s.votes, (Prod.snd p).stake ∉ tallyRefs s.tally)
    (hpd : ∀ p ∈ s.voters, Prod.snd p ∉ tallyRefs s.tally)
    (hvc : ∀ p ∈ s.votes, (Prod.snd p).voter = Prod.fst p)
    (hvn : (s.votes.map Prod.fst).Nodup)
    (hon : (s.voters.map Prod.fst).Nodup)
    (hkn : (s.tally.map Prod.fst).Nodup) :
    ((s.voters.length ≤ cfg.maxSignerCount ∨ s.tally.length ≤ cfg.maxSignerCount) →
      σ2 = σ ∧ s2 = s) ∧
    (min s.voters.length cfg.maxSignerCount ≤ s2.voters.length ∧
      min s.tally.length cfg.maxSignerCount ≤ s2.tally.length) ∧
    (∀ v r, lookupA s.voters v = some r → lookupA s2.voters v = none →
      cfg.epoch < s.number - (storeRead σ r).toNat) ∧
    ∃ rems : List Vote,
      (∀ vt ∈ rems, lookupA s.votes vt.voter = some vt ∧
        lookupA s2.voters vt.voter = none ∧ lookupA s2.votes vt.voter = none) ∧
      (∀ v, lookupA s.voters v ≠ none → lookupA s2.voters v = none →
        v ∈ rems.map Vote.voter) ∧
      (∀ c tr, lookupA s.tally c = some tr →
        storeRead σ2 tr = storeRead σ tr -
          ((rems.filter (fun vt => vt.candidate = c)).map
            (fun vt => storeRead σ vt.stake)).sum) ∧
      (∀ c tr, lookupA s.tally c = some tr → lookupA s2.tally c = none →
        storeRead σ2 tr = 0) ∧
      (∀ c tr, lookupA s.tally c = some tr →
        rems.filter (fun vt => vt.candidate = c) ≠ [] →
        storeRead σ2 tr = 0 → lookupA s2.tally c = none) ∧
      ((cfg.maxSignerCount < s2.voters.length ∧ cfg.maxSignerCount < s2.tally.length) →
        ∀ v r, lookupA s.voters v = some r →
          cfg.epoch < s.number - (storeRead σ r).toNat →
          lookupA s.votes v ≠ none → v ∈ rems.map Vote.voter) := by
  unfold dealExpiredVote at hrun
  have hframe := expireGo_frame cfg s.voters σ s σ2 s2 hrun
  obtain ⟨rems, R1, R2, R3, R4, R5, R6, R7, R7b, R8⟩ :=
    expireGo_removals cfg s.voters σ s σ2 s2 hrun htn hsd hpd hvc hvn hon hkn hon
  have hstaleconv : ∀ v r, (v, r) ∈ s.voters →
      (u64sub s.number (bigUint64 (storeRead σ r)) > cfg.epoch ↔
        cfg.epoch < s.number - (storeRead σ r).toNat) := by
    intro v r hm
    rw [u64sub_in_range s.number (storeRead σ r) hnum (hvr _ hm).1 (hvr _ hm).2]
  refine ⟨?_, ⟨hframe.2.2.2.2.2.1, hframe.2.2.2.2.2.2⟩, ?_, rems, ?_, R4, R6, R7, R7b, ?_⟩
  · intro hbrk
    rcases hvl : s.voters with _ | ⟨p, rest⟩
    · rw [hvl] at hrun
      simp only [expireGo, Except.ok.injEq, Prod.mk.injEq] at hrun
      exact ⟨hrun.1.symm, hrun.2.symm⟩
    · obtain ⟨va, nr⟩ := p
      rw [hvl] at hrun
      rw [expireGo, if_pos hbrk] at hrun
      simp only [Except.ok.injEq, Prod.mk.injEq] at hrun
      exact ⟨hrun.1.symm, hrun.2.symm⟩
  · intro v r hlk hnone
    have hv0 : lookupA s.voters v ≠ none := by
      rw [hlk]
      exact fun he => Option.noConfusion he
    have hmem := R4 v hv0 hnone
    obtain ⟨vt, hvt, hveq⟩ := List.mem_map.mp hmem
    obtain ⟨r2, hr2m, hr2s⟩ := R2 vt hvt
    have hlk2 : lookupA s.voters vt.voter = some r2 := lookupA_of_mem_nodup hon hr2m
    rw [hveq, hlk] at hlk2
    cases hlk2
    exact (hstaleconv v r (mem_of_lookupA_some hlk)).mp hr2s
  · intro vt hvt
    exact ⟨R1 vt hvt, (R3 vt hvt).1, (R3 vt hvt).2⟩
  · intro hcnt v r hlk hst hvt
    have hm := mem_of_lookupA_some hlk
    exact R8 hcnt (v, r) hm ((hstaleconv v r hm).mpr hst) hvt

/-- Witness for C7 at a concrete snapshot (two candidates, no voters): the
expiry phase leaves everything unchanged and the characterization holds
with no removals. -/
theorem c7_expiry_characterization_witness :
    ((tallyRefs c3s.tally).Nodup ∧ (c3s.voters.map Prod.fst).Nodup ∧
      c3s.number < 2 ^ 64) ∧
    (((c3s.voters.length ≤ cfg3.maxSignerCount ∨
        c3s.tally.length ≤ cfg3.maxSignerCount) → c3σ = c3σ ∧ c3s = c3s) ∧
    (min c3s.voters.length cfg3.maxSignerCount ≤ c3s.voters.length ∧
      min c3s.tally.length cfg3.maxSignerCount ≤ c3s.tally.length) ∧
    (∀ v r, lookupA c3s.voters v = some r → lookupA c3s.voters v = none →
      cfg3.epoch < c3s.number - (storeRead c3σ r).toNat) ∧
    ∃ rems : List Vote,
      (∀ vt ∈ rems, lookupA c3s.votes vt.voter = some vt ∧
        lookupA c3s.voters vt.voter = none ∧ lookupA c3s.votes vt.voter = none) ∧
      (∀ v, lookupA c3s.voters v ≠ none → lookupA c3s.voters v = none →
        v ∈ rems.map Vote.voter) ∧
      (∀ c tr, lookupA c3s.tally c = some tr →
        storeRead c3σ tr = storeRead c3σ tr -
          ((rems.filter (fun vt => vt.candidate = c)).map
            (fun vt => storeRead c3σ vt.stake)).sum) ∧
      (∀ c tr, lookupA c3s.tally c = some tr → lookupA c3s.tally c = none →
        storeRead c3σ tr = 0) ∧
      (∀ c tr, lookupA c3s.tally c = some tr →
        rems.filter (fun vt => vt.candidate = c) ≠ [] →
        storeRead c3σ tr = 0 → lookupA c3s.tally c = none) ∧
      ((cfg3.maxSignerCount < c3s.voters.length ∧
          cfg3.maxSignerCount < c3s.tally.length) →
        ∀ v r, lookupA c3s.voters v = some r →
          cfg3.epoch < c3s.number - (storeRead c3σ r).toNat →
          lookupA c3s.votes v ≠ none → v ∈ rems.map Vote.voter)) :=
  ⟨⟨by decide, by decide, by decide⟩,
    c7_expiry_characterization cfg3 c3σ c3σ c3s c3s rfl (by decide)
      (by intro p hp; cases hp) (by decide)
      (by intro p hp; cases hp) (by intro p hp; cases hp)
      (by intro p hp; cases hp) (by decide) (by decide) (by decide)⟩

/-- Witness for C6: a header numbered 1 applied to a snapshot at height 10
is rejected with `invalidVotingChain`. -/
theorem c6_apply_preconditions_witness :
    ((∀ h ∈ [c5h], h.number + 1 < 2 ^ 64) ∧ c1s.number + 1 < 2 ^ 64) ∧
    Alien.apply cfg3 (mkStore []) c1s [] = Except.ok (mkStore [], c1s) ∧
    Alien.apply cfg3 (mkStore []) c1s [c5h] = Except.error ApplyError.invalidVotingChain := by
  have h := c6_apply_preconditions cfg3 (mkStore []) c1s [c5h]
    (by decide) (by decide)
  exact ⟨⟨by decide, by decide⟩, h.1, h.2 (by decide) (Or.inr (by decide))⟩

end Alien
